import Mathlib

/-!
Verification development for the `prime-uve` repository: a shallow embedding of
the mapping-cache module, the `.env.uve` file module and the `list` command's
validation logic, with theorems settling the specification's claims.

The repository sources present here are `cli/list.py` (embedded below as
`validate_project_mapping` / `get_disk_usage`), while the `core/cache.py` and
`core/env_file.py` modules are absent from the source tree (only their test
suites and callers remain); those are modelled from the specification's words,
each such definition marked `Modelled from the spec:` in its doc comment.
-/

namespace PrimeUve

/-! ## Association lists

The cache's `venvs` mapping and the parsed environment files are Python
dictionaries of strings; we embed them as association lists with
first-match lookup and in-place overwrite. -/

/-- First-match lookup in an association list. -/
def lookupA {α : Type} : List (String × α) → String → Option α
  | [], _ => none
  | (k, v) :: rest, key => if k = key then some v else lookupA rest key

/-- Insert-or-overwrite: replaces the value at `key` in place, appending
a new pair when the key is absent (Python `d[key] = value`). -/
def upsertA {α : Type} : List (String × α) → String → α → List (String × α)
  | [], key, v => [(key, v)]
  | (k, w) :: rest, key, v =>
      if k = key then (k, v) :: rest else (k, w) :: upsertA rest key v

/-- Delete every pair at `key` (Python `del d[key]`). -/
def eraseA {α : Type} (l : List (String × α)) (key : String) : List (String × α) :=
  l.filter (fun p => p.1 ≠ key)

/-- Key membership. -/
def containsA {α : Type} (l : List (String × α)) (key : String) : Bool :=
  (lookupA l key).isSome

theorem lookupA_upsertA_self {α : Type} (l : List (String × α)) (k : String) (v : α) :
    lookupA (upsertA l k v) k = some v := by
  induction l with
  | nil => simp [upsertA, lookupA]
  | cons p rest ih =>
      obtain ⟨k', w⟩ := p
      by_cases h : k' = k <;> simp [upsertA, lookupA, h, ih]

theorem lookupA_upsertA_ne {α : Type} (l : List (String × α)) (k k' : String) (v : α)
    (h : k' ≠ k) : lookupA (upsertA l k v) k' = lookupA l k' := by
  have h' : k ≠ k' := Ne.symm h
  induction l with
  | nil => simp [upsertA, lookupA, h']
  | cons p rest ih =>
      obtain ⟨k₀, w⟩ := p
      by_cases h0 : k₀ = k
      · subst h0
        simp [upsertA, lookupA, h']
      · simp [upsertA, lookupA, h0, ih]

theorem lookupA_eraseA_self {α : Type} (l : List (String × α)) (k : String) :
    lookupA (eraseA l k) k = none := by
  induction l with
  | nil => simp [eraseA, lookupA]
  | cons p rest ih =>
      obtain ⟨k', w⟩ := p
      by_cases h : k' = k <;>
        simp_all [eraseA, lookupA, List.filter]

theorem lookupA_eraseA_ne {α : Type} (l : List (String × α)) (k k' : String)
    (h : k' ≠ k) : lookupA (eraseA l k) k' = lookupA l k' := by
  have h' : k ≠ k' := Ne.symm h
  induction l with
  | nil => simp [eraseA, lookupA]
  | cons p rest ih =>
      obtain ⟨k₀, w⟩ := p
      by_cases h0 : k₀ = k
      · subst h0
        simp_all [eraseA, lookupA, List.filter, h']
      · by_cases h1 : k₀ = k' <;> simp_all [eraseA, lookupA, List.filter]

/-! ## Cache data model

One record per tracked project, as persisted in `cache.json` under the
`venvs` object.  Timestamps are abstracted as naturals (the code stores
ISO-8601 strings produced from a monotone wall clock). -/

/-- A cache record: `venv_path` (may carry an unexpanded placeholder),
display name, path hash, and the two timestamps. -/
structure CacheEntry where
  venv_path : String
  project_name : String
  path_hash : String
  created_at : Nat
  last_validated : Nat
deriving Repr, DecidableEq

/-- Modelled from the spec: `Cache.add_mapping` of `prime_uve.core.cache`
(module absent from the source tree; only its tests remain).  Inserts or
updates the entry for the canonical project path: on update it preserves the
original `created_at` and refreshes `last_validated` to the current time; on
first insert both are the current time. -/
def add_mapping (venvs : List (String × CacheEntry))
    (key venvPath name hash : String) (now : Nat) : List (String × CacheEntry) :=
  match lookupA venvs key with
  | some old => upsertA venvs key ⟨venvPath, name, hash, old.created_at, now⟩
  | none => upsertA venvs key ⟨venvPath, name, hash, now, now⟩

/-- Modelled from the spec: `Cache.get_mapping` — lookup by canonical path,
absent result (never an error) when untracked. -/
def get_mapping (venvs : List (String × CacheEntry)) (key : String) :
    Option CacheEntry :=
  lookupA venvs key

/-- Modelled from the spec: `Cache.remove_mapping` — deletes the entry if
present and reports whether a deletion occurred; the updated document is
persisted immediately (returned here alongside the flag). -/
def remove_mapping (venvs : List (String × CacheEntry)) (key : String) :
    Bool × List (String × CacheEntry) :=
  if containsA venvs key then (true, eraseA venvs key) else (false, venvs)

/-! ## Canonical keys (symlink resolution)

The cache keys every operation by the canonical (absolute, symlink-resolved)
form of the project path.  We model the symlink state of the filesystem as a
one-step link table whose targets are themselves canonical. -/

/-- Modelled from the spec: the canonicalisation `Path.resolve()` applied to
every project path before use as a cache key.  `links` is the symlink table of
the filesystem; a path that is not a link resolves to itself. -/
def resolvePath (links : List (String × String)) (p : String) : String :=
  match lookupA links p with
  | some q => q
  | none => p

/-- Modelled from the spec: `add_mapping` as invoked on a raw project path —
the key is the canonical form of the path. -/
def add_mapping_resolved (links : List (String × String))
    (venvs : List (String × CacheEntry)) (p vp name hash : String) (now : Nat) :
    List (String × CacheEntry) :=
  add_mapping venvs (resolvePath links p) vp name hash now

/-- Modelled from the spec: `get_mapping` as invoked on a raw project path. -/
def get_mapping_resolved (links : List (String × String))
    (venvs : List (String × CacheEntry)) (p : String) : Option CacheEntry :=
  get_mapping venvs (resolvePath links p)

theorem mem_keys_upsertA {α : Type} (l : List (String × α)) (key : String) (v : α)
    (x : String) (hx : x ∈ (upsertA l key v).map Prod.fst) :
    x ∈ l.map Prod.fst ∨ x = key := by
  induction l with
  | nil =>
      simp [upsertA] at hx
      simp [hx]
  | cons p rest ih =>
      obtain ⟨k0, w⟩ := p
      by_cases h : k0 = key
      · subst h
        simp [upsertA] at hx
        rcases hx with hx | hx <;> simp [hx]
      · simp [upsertA, h] at hx
        rcases hx with hx | hx
        · simp [hx]
        · have hx' : x ∈ (upsertA rest key v).map Prod.fst := by simpa using hx
          rcases ih hx' with hh | hh <;> simp [hh]

theorem mem_keys_add_mapping (venvs : List (String × CacheEntry))
    (key vp name hash : String) (now : Nat) (x : String)
    (hx : x ∈ (add_mapping venvs key vp name hash now).map Prod.fst) :
    x ∈ venvs.map Prod.fst ∨ x = key := by
  unfold add_mapping at hx
  cases hlk : lookupA venvs key with
  | none =>
      rw [hlk] at hx
      exact mem_keys_upsertA _ _ _ _ hx
  | some old =>
      rw [hlk] at hx
      exact mem_keys_upsertA _ _ _ _ hx

/-- C6: cache keys are always canonical.  If `link` is a symlink to the
canonical directory `real`, adding a mapping via the symlink and querying via
the real path (or vice versa) address the same single entry, and when the
existing keys are canonical, every key of the resulting document is canonical
(a fixed point of resolution). -/
theorem cache_keys_canonical (links : List (String × String))
    (venvs : List (String × CacheEntry)) (link real vp name hash : String)
    (now : Nat) (hlink : lookupA links link = some real)
    (hreal : lookupA links real = none)
    (hcanon : ∀ k ∈ venvs.map Prod.fst, resolvePath links k = k) :
    (get_mapping_resolved links (add_mapping_resolved links venvs link vp name hash now) real
       = get_mapping_resolved links (add_mapping_resolved links venvs link vp name hash now) link
     ∧ (get_mapping_resolved links
          (add_mapping_resolved links venvs link vp name hash now) real).isSome = true)
    ∧ ∀ k ∈ (add_mapping_resolved links venvs link vp name hash now).map Prod.fst,
        resolvePath links k = k := by
  have hres_link : resolvePath links link = real := by simp [resolvePath, hlink]
  have hres_real : resolvePath links real = real := by simp [resolvePath, hreal]
  constructor
  · constructor
    · simp [get_mapping_resolved, hres_link, hres_real]
    · simp only [get_mapping_resolved, hres_real, add_mapping_resolved, hres_link]
      unfold add_mapping
      cases hlk : lookupA venvs real <;>
        simp [get_mapping, lookupA_upsertA_self]
  · intro k hk
    simp only [add_mapping_resolved, hres_link] at hk
    rcases mem_keys_add_mapping _ _ _ _ _ _ _ hk with hh | hh
    · exact hcanon k hh
    · subst hh
      exact hres_real

/-- Witness for C6 at a concrete symlink table. -/
theorem cache_keys_canonical_witness :
    (get_mapping_resolved [("/ln", "/real")]
        (add_mapping_resolved [("/ln", "/real")] [] "/ln" "v" "p" "h" 5) "/real"
       = get_mapping_resolved [("/ln", "/real")]
           (add_mapping_resolved [("/ln", "/real")] [] "/ln" "v" "p" "h" 5) "/ln"
     ∧ (get_mapping_resolved [("/ln", "/real")]
          (add_mapping_resolved [("/ln", "/real")] [] "/ln" "v" "p" "h" 5) "/real").isSome
         = true)
    ∧ ∀ k ∈ (add_mapping_resolved [("/ln", "/real")] [] "/ln" "v" "p" "h" 5).map Prod.fst,
        resolvePath [("/ln", "/real")] k = k :=
  cache_keys_canonical [("/ln", "/real")] [] "/ln" "/real" "v" "p" "h" 5
    (by decide) (by decide) (by intro k hk; simp at hk)

/-! ## Validation of a cached mapping (`Cache.validate_mapping`) -/

/-- The three validation statuses of a cached mapping. -/
inductive VStatus where
  | valid
  | orphaned
  | mismatch
deriving Repr, DecidableEq

/-- Validation outcome: a status and an ordered list of human-readable
issue strings (derived, never persisted). -/
structure VResult where
  status : VStatus
  issues : List String
deriving Repr, DecidableEq

/-- The filesystem facts `validate_mapping` consults for one cached project:
whether the project directory exists, whether the cached venv directory
(after placeholder expansion) exists, and the project's `.env.uve` state —
`none` when the file is missing, otherwise the `UV_PROJECT_ENVIRONMENT`
value it declares (`some none` when the file lacks that variable). -/
structure ProjectFsView where
  projectDirExists : Bool
  venvDirExists : Bool
  envDecl : Option (Option String)
deriving Repr, DecidableEq

def projectIssue : String := "Project directory does not exist"

def venvIssue : String := "Venv directory does not exist"

def envMissingIssue : String := ".env.uve file does not exist"

def mismatchIssue : String := "Venv path mismatch between cache and .env.uve"

/-- Modelled from the spec: `Cache.validate_mapping` of `prime_uve.core.cache`
(module absent from the source tree; only its tests remain).  Checks in
order: (a) the project directory exists, (b) the cached venv directory exists
on disk after placeholder expansion, (c) the project's own `.env.uve` exists
and declares the same venv path as the cache.  Each failed check appends a
distinct issue string; the status is `orphaned` when a directory or the
declaration file is missing, `mismatch` when everything exists but the
declared path differs, `valid` only when every check passes. -/
def validate_mapping (fs : ProjectFsView) (cachedVenv : String) : VResult :=
  let i1 : List String := if fs.projectDirExists then [] else [projectIssue]
  let i2 : List String := if fs.venvDirExists then [] else [venvIssue]
  let i3 : List String :=
    match fs.envDecl with
    | none => [envMissingIssue]
    | some d => if d = some cachedVenv then [] else [mismatchIssue]
  let status : VStatus :=
    if !fs.projectDirExists || !fs.venvDirExists || fs.envDecl.isNone then
      VStatus.orphaned
    else if fs.envDecl = some (some cachedVenv) then VStatus.valid
    else VStatus.mismatch
  ⟨status, i1 ++ i2 ++ i3⟩

/-- The claim's own wording of the status classification, stated separately to
be compared with the modelled operation. -/
def claimedStatus (fs : ProjectFsView) (cachedVenv : String) : VStatus :=
  if fs.projectDirExists = false ∨ fs.venvDirExists = false ∨ fs.envDecl = none then
    VStatus.orphaned
  else if fs.envDecl = some (some cachedVenv) then VStatus.valid
  else VStatus.mismatch

/-- C1: for every cached project, `validate_mapping` returns a result whose
status is exactly the three-way classification the claim states (`orphaned`
when the project directory, the expanded venv directory, or `.env.uve` is
missing; `mismatch` when everything exists but the declared path differs;
`valid` only when every check passes), the status is `valid` exactly when
`issues` is empty, the issue strings are pairwise distinct, and their number
equals the number of failed checks. -/
theorem validate_mapping_status (fs : ProjectFsView) (cached : String) :
    (validate_mapping fs cached).status = claimedStatus fs cached
    ∧ ((validate_mapping fs cached).status = VStatus.valid
        ↔ (validate_mapping fs cached).issues = [])
    ∧ (validate_mapping fs cached).issues.Nodup
    ∧ (validate_mapping fs cached).issues.length
        = ((if fs.projectDirExists then 0 else 1)
            + (if fs.venvDirExists then 0 else 1)
            + (match fs.envDecl with
                | none => 1
                | some d => if d = some cached then 0 else 1)) := by
  obtain ⟨pb, vb, ed⟩ := fs
  rcases ed with _ | d
  · cases pb <;> cases vb <;>
      simp [validate_mapping, claimedStatus, projectIssue, venvIssue,
        envMissingIssue, mismatchIssue]
  · by_cases hd : d = some cached
    · cases pb <;> cases vb <;>
        simp [validate_mapping, claimedStatus, hd, projectIssue, venvIssue,
          envMissingIssue, mismatchIssue]
    · cases pb <;> cases vb <;>
        simp [validate_mapping, claimedStatus, hd, projectIssue, venvIssue,
          envMissingIssue, mismatchIssue]

/-- C5: for every project path, calling `add_mapping` a second time preserves
the `created_at` timestamp recorded by the first call and strictly advances
`last_validated`: after the second call, `get_mapping` returns an entry whose
`created_at` equals the original and whose `last_validated` is strictly
greater than `created_at`. -/
theorem add_mapping_twice_preserves_created_at
    (venvs : List (String × CacheEntry)) (key va na ha vb nb hb : String)
    (t1 t2 : Nat) (hfresh : lookupA venvs key = none) (ht : t1 < t2) :
    ∃ e : CacheEntry,
      get_mapping (add_mapping (add_mapping venvs key va na ha t1) key vb nb hb t2) key
        = some e
      ∧ e.created_at = t1 ∧ e.last_validated = t2
      ∧ e.created_at < e.last_validated := by
  refine ⟨⟨vb, nb, hb, t1, t2⟩, ?_, rfl, rfl, ht⟩
  simp [add_mapping, get_mapping, hfresh, lookupA_upsertA_self]

/-- Witness for C5 at a concrete input. -/
theorem add_mapping_twice_preserves_created_at_witness :
    ∃ e : CacheEntry,
      get_mapping (add_mapping (add_mapping [] "/p" "v1" "p" "h1" 0) "/p" "v2" "p" "h1" 1) "/p"
        = some e
      ∧ e.created_at = 0 ∧ e.last_validated = 1
      ∧ e.created_at < e.last_validated :=
  add_mapping_twice_preserves_created_at [] "/p" "v1" "p" "h1" "v2" "p" "h1" 0 1 rfl
    (by decide)

/-- C8: `remove_mapping` on an absent key returns `false` and leaves the
document unchanged; on a present key it returns `true`, a subsequent
`get_mapping` for that key is absent, and every other key's entry is
untouched. -/
theorem remove_mapping_spec (venvs : List (String × CacheEntry)) (key : String) :
    (get_mapping venvs key = none → remove_mapping venvs key = (false, venvs))
    ∧ (∀ e, get_mapping venvs key = some e →
        (remove_mapping venvs key).1 = true
        ∧ get_mapping (remove_mapping venvs key).2 key = none
        ∧ ∀ k, k ≠ key →
            get_mapping (remove_mapping venvs key).2 k = get_mapping venvs k) := by
  constructor
  · intro h
    simp [remove_mapping, containsA, get_mapping] at *
    simp [h]
  · intro e he
    simp only [get_mapping] at he
    refine ⟨?_, ?_, ?_⟩
    · simp [remove_mapping, containsA, he]
    · simp [remove_mapping, containsA, he, get_mapping, lookupA_eraseA_self]
    · intro k hk
      simp [remove_mapping, containsA, he, get_mapping, lookupA_eraseA_ne _ _ _ hk]

/-- Witness for C8 at concrete inputs: an absent key and a present key. -/
theorem remove_mapping_spec_witness :
    remove_mapping [("/a", (⟨"v", "n", "h", 0, 0⟩ : CacheEntry))] "/b"
      = (false, [("/a", (⟨"v", "n", "h", 0, 0⟩ : CacheEntry))])
    ∧ (remove_mapping [("/a", (⟨"v", "n", "h", 0, 0⟩ : CacheEntry))] "/a").1 = true
    ∧ get_mapping (remove_mapping [("/a", (⟨"v", "n", "h", 0, 0⟩ : CacheEntry))] "/a").2 "/a"
      = none
    ∧ get_mapping (remove_mapping [("/a", (⟨"v", "n", "h", 0, 0⟩ : CacheEntry))] "/a").2 "/c"
      = get_mapping [("/a", (⟨"v", "n", "h", 0, 0⟩ : CacheEntry))] "/c" := by
  refine ⟨(remove_mapping_spec _ "/b").1 (by decide),
    ((remove_mapping_spec _ "/a").2 ⟨"v", "n", "h", 0, 0⟩ (by decide)).1,
    ((remove_mapping_spec _ "/a").2 ⟨"v", "n", "h", 0, 0⟩ (by decide)).2.1,
    ((remove_mapping_spec _ "/a").2 ⟨"v", "n", "h", 0, 0⟩ (by decide)).2.2 "/c" (by decide)⟩

/-! ## The persisted cache document and its lazy migration -/

/-- The current cache schema version (`Cache.CURRENT_VERSION`). -/
def CURRENT_VERSION : String := "1.0"

/-- The persisted cache document: an optional version marker and the
`venvs` mapping. -/
structure CacheDoc where
  version : Option String
  venvs : List (String × CacheEntry)
deriving Repr, DecidableEq

/-- Deterministic JSON rendering of one cache entry. -/
def serializeEntry (e : CacheEntry) : String :=
  "\x7b\"venv_path\": \"" ++ e.venv_path ++ "\", \"project_name\": \""
    ++ e.project_name ++ "\", \"path_hash\": \"" ++ e.path_hash
    ++ "\", \"created_at\": " ++ toString e.created_at
    ++ ", \"last_validated\": " ++ toString e.last_validated ++ "\x7d"

/-- Deterministic JSON rendering of the `venvs` object's fields. -/
def serializeVenvs : List (String × CacheEntry) → String
  | [] => ""
  | [(k, e)] => "\"" ++ k ++ "\": " ++ serializeEntry e
  | (k, e) :: rest =>
      "\"" ++ k ++ "\": " ++ serializeEntry e ++ ", " ++ serializeVenvs rest

/-- Deterministic JSON rendering of the whole document, as written back to
`cache.json`. -/
def serializeDoc (d : CacheDoc) : String :=
  "\x7b\"version\": \"" ++ d.version.getD "" ++ "\", \"venvs\": \x7b"
    ++ serializeVenvs d.venvs ++ "\x7d\x7d"

/-- Modelled from the spec: the pure document migration underlying
`migrate_if_needed` — adds the current version marker when it is missing or
stale, leaving all entries unchanged. -/
def migrateDoc (d : CacheDoc) : CacheDoc :=
  if d.version = some CURRENT_VERSION then d
  else ⟨some CURRENT_VERSION, d.venvs⟩

/-- Modelled from the spec: `Cache.migrate_if_needed` of `prime_uve.core.cache`
(module absent from the source tree; only its tests remain), acting on the
on-disk file.  `content` is the raw bytes of `cache.json` and `d` the document
those bytes denote; when the document already carries the current version the
call is a strict no-op and the bytes are returned untouched, otherwise the
migrated document is serialized and written back. -/
def migrate_if_needed (content : String) (d : CacheDoc) : String × CacheDoc :=
  if d.version = some CURRENT_VERSION then (content, d)
  else (serializeDoc (migrateDoc d), migrateDoc d)

/-- C2: `migrate_if_needed` is idempotent.  On a document lacking a version
marker it rewrites the file with the current version marker leaving the
`venvs` map unchanged, and a second invocation is then a strict no-op, so the
output is byte-identical; on a document already carrying the current version
it is a strict no-op preserving the file content byte for byte. -/
theorem migrate_if_needed_idempotent (content : String) (d : CacheDoc) :
    (d.version = none →
      (migrate_if_needed content d).2.version = some CURRENT_VERSION
      ∧ (migrate_if_needed content d).2.venvs = d.venvs
      ∧ migrate_if_needed (migrate_if_needed content d).1
          (migrate_if_needed content d).2
          = migrate_if_needed content d)
    ∧ (d.version = some CURRENT_VERSION → migrate_if_needed content d = (content, d)) := by
  constructor
  · intro h
    simp [migrate_if_needed, migrateDoc, h]
  · intro h
    simp [migrate_if_needed, h]

/-- Witness for C2: a version-less document gains the current marker with its
entries untouched and the second run is byte-identical; a current document is
untouched. -/
theorem migrate_if_needed_idempotent_witness :
    ((migrate_if_needed "\x7b\"venvs\": \x7b\x7d\x7d" ⟨none, []⟩).2.version
        = some CURRENT_VERSION
      ∧ (migrate_if_needed "\x7b\"venvs\": \x7b\x7d\x7d" ⟨none, []⟩).2.venvs
        = ([] : List (String × CacheEntry))
      ∧ migrate_if_needed (migrate_if_needed "\x7b\"venvs\": \x7b\x7d\x7d" ⟨none, []⟩).1
          (migrate_if_needed "\x7b\"venvs\": \x7b\x7d\x7d" ⟨none, []⟩).2
          = migrate_if_needed "\x7b\"venvs\": \x7b\x7d\x7d" ⟨none, []⟩)
    ∧ migrate_if_needed (serializeDoc ⟨some CURRENT_VERSION, []⟩)
        ⟨some CURRENT_VERSION, []⟩
        = (serializeDoc ⟨some CURRENT_VERSION, []⟩, ⟨some CURRENT_VERSION, []⟩) :=
  ⟨(migrate_if_needed_idempotent _ _).1 rfl,
   (migrate_if_needed_idempotent _ _).2 rfl⟩

/-! ## Lock-guarded mutation -/

/-- The distinct error type of the cache module (`CacheError`). -/
structure CacheError where
  msg : String
deriving Repr, DecidableEq

/-- Substring test on character lists. -/
def startsWithChars : List Char → List Char → Bool
  | [], _ => true
  | _ :: _, [] => false
  | a :: pat, b :: rest => a = b && startsWithChars pat rest

/-- `hasInfixChars pat l` holds when `pat` occurs contiguously in `l`. -/
def hasInfixChars (pat : List Char) : List Char → Bool
  | [] => startsWithChars pat []
  | c :: rest => startsWithChars pat (c :: rest) || hasInfixChars pat rest

/-- `strContains s pat` holds when `pat` occurs as a substring of `s`. -/
def strContains (s pat : String) : Bool :=
  hasInfixChars pat.data s.data

/-- The fixed lock-acquisition timeout, in seconds. -/
def LOCK_TIMEOUT : Nat := 10

/-- Modelled from the spec: the message of the lock-contention error, naming
the lock and the ten-second timeout. -/
def lockTimeoutMsg : String :=
  "Could not acquire cache lock within 10 seconds"

/-- The state a mutating cache operation sees: whether another process holds
the file lock past the timeout, the raw `cache.json` bytes (`none` = absent)
and the document they denote. -/
structure CacheFile where
  lockHeldByOther : Bool
  content : Option String
  doc : CacheDoc
deriving Repr, DecidableEq

/-- Modelled from the spec: the lock-guarded read-modify-write that every
mutating operation performs — when the exclusive lock cannot be acquired
within the ten-second timeout the operation fails with the distinct
lock-contention error and performs no write; otherwise the new document is
serialized and written back whole. -/
def runLocked (st : CacheFile) (newDoc : CacheDoc) : CacheFile × Option CacheError :=
  if st.lockHeldByOther then (st, some ⟨lockTimeoutMsg⟩)
  else (⟨st.lockHeldByOther, some (serializeDoc newDoc), newDoc⟩, none)

/-- Modelled from the spec: `add_mapping` as a lock-guarded file mutation. -/
def add_mapping_locked (st : CacheFile) (key vp name hash : String) (now : Nat) :
    CacheFile × Option CacheError :=
  runLocked st ⟨some CURRENT_VERSION, add_mapping st.doc.venvs key vp name hash now⟩

/-- Modelled from the spec: `remove_mapping` as a lock-guarded file mutation. -/
def remove_mapping_locked (st : CacheFile) (key : String) :
    CacheFile × Option CacheError :=
  runLocked st ⟨some CURRENT_VERSION, (remove_mapping st.doc.venvs key).2⟩

/-- Modelled from the spec: `clear` — empties the venvs mapping under the
lock and persists immediately. -/
def clear_locked (st : CacheFile) : CacheFile × Option CacheError :=
  runLocked st ⟨some CURRENT_VERSION, []⟩

/-- Modelled from the spec: `validate_mapping`'s persisted side effect — the
entry's `last_validated` is refreshed under the lock. -/
def validate_mapping_locked (st : CacheFile) (key : String) (now : Nat) :
    CacheFile × Option CacheError :=
  runLocked st
    ⟨some CURRENT_VERSION,
      match lookupA st.doc.venvs key with
      | some e => upsertA st.doc.venvs key
          ⟨e.venv_path, e.project_name, e.path_hash, e.created_at, now⟩
      | none => st.doc.venvs⟩

/-- C3: when the exclusive cross-process lock cannot be acquired within the
fixed ten-second timeout, every mutating operation (`add_mapping`,
`remove_mapping`, `clear`, `validate_mapping`) fails with the distinct
lock-contention error — whose message names the lock and the ten-second
timeout — and the cache file on disk is left unmodified. -/
theorem lock_timeout_spec (st : CacheFile) (key vp name hash : String) (now : Nat)
    (hlock : st.lockHeldByOther = true) :
    add_mapping_locked st key vp name hash now = (st, some ⟨lockTimeoutMsg⟩)
    ∧ remove_mapping_locked st key = (st, some ⟨lockTimeoutMsg⟩)
    ∧ clear_locked st = (st, some ⟨lockTimeoutMsg⟩)
    ∧ validate_mapping_locked st key now = (st, some ⟨lockTimeoutMsg⟩)
    ∧ (add_mapping_locked st key vp name hash now).1.content = st.content
    ∧ strContains lockTimeoutMsg "lock" = true
    ∧ strContains lockTimeoutMsg "10 seconds" = true
    ∧ LOCK_TIMEOUT = 10 := by
  refine ⟨?_, ?_, ?_, ?_, ?_, by decide, by decide, rfl⟩ <;>
    simp [add_mapping_locked, remove_mapping_locked, clear_locked,
      validate_mapping_locked, runLocked, hlock]

/-- Witness for C3 at a concrete held-lock state. -/
theorem lock_timeout_spec_witness :
    add_mapping_locked ⟨true, some "x", ⟨none, []⟩⟩ "/p" "v" "n" "h" 3
      = (⟨true, some "x", ⟨none, []⟩⟩, some ⟨lockTimeoutMsg⟩)
    ∧ remove_mapping_locked ⟨true, some "x", ⟨none, []⟩⟩ "/p"
      = (⟨true, some "x", ⟨none, []⟩⟩, some ⟨lockTimeoutMsg⟩)
    ∧ clear_locked ⟨true, some "x", ⟨none, []⟩⟩
      = (⟨true, some "x", ⟨none, []⟩⟩, some ⟨lockTimeoutMsg⟩)
    ∧ validate_mapping_locked ⟨true, some "x", ⟨none, []⟩⟩ "/p" 3
      = (⟨true, some "x", ⟨none, []⟩⟩, some ⟨lockTimeoutMsg⟩)
    ∧ (add_mapping_locked ⟨true, some "x", ⟨none, []⟩⟩ "/p" "v" "n" "h" 3).1.content
      = some "x"
    ∧ strContains lockTimeoutMsg "lock" = true
    ∧ strContains lockTimeoutMsg "10 seconds" = true
    ∧ LOCK_TIMEOUT = 10 :=
  lock_timeout_spec ⟨true, some "x", ⟨none, []⟩⟩ "/p" "v" "n" "h" 3 rfl

/-! ## Tolerant reads: `list_all` -/

/-- Untyped JSON values, as produced by loading `cache.json`. -/
inductive Json where
  | null
  | bool (b : Bool)
  | num (n : Int)
  | str (s : String)
  | arr (elems : List Json)
  | obj (fields : List (String × Json))

/-- The on-disk states of `cache.json` the spec distinguishes: absent, empty,
syntactically invalid JSON, or well-formed JSON of some shape. -/
inductive DiskState where
  | absent
  | emptyFile
  | corrupt (raw : String)
  | wellFormed (v : Json)

/-- Modelled from the spec: loading the cache document, which can fail — the
file may be absent, empty, corrupt, or parse to JSON that is not the expected
document shape (a top-level object whose `venvs` field is an object). -/
def loadDoc : DiskState → Except CacheError (List (String × Json))
  | .absent => .error ⟨"cache file absent"⟩
  | .emptyFile => .error ⟨"cache file empty"⟩
  | .corrupt _ => .error ⟨"invalid JSON in cache file"⟩
  | .wellFormed v =>
      match v with
      | .obj fields =>
          match lookupA fields "venvs" with
          | some (.obj venvs) => .ok venvs
          | some _ => .error ⟨"venvs is not an object"⟩
          | none => .ok []
      | _ => .error ⟨"cache document is not an object"⟩

/-- Modelled from the spec: `Cache.list_all` of `prime_uve.core.cache`
(module absent from the source tree; only its tests remain) — returns every
tracked entry and treats any load failure (absent, empty, corrupt, wrong
shape) as "no data": an empty mapping, never an error. -/
def list_all (s : DiskState) : List (String × Json) :=
  match loadDoc s with
  | .error _ => []
  | .ok venvs => venvs

/-- C4: `list_all` never raises — for every on-disk state of the cache file,
every load failure is converted into an empty mapping: in particular the
absent, empty, corrupt and top-level-array states all yield `[]`. -/
theorem list_all_never_raises (s : DiskState) :
    (∀ e, loadDoc s = .error e → list_all s = [])
    ∧ list_all DiskState.absent = []
    ∧ list_all DiskState.emptyFile = []
    ∧ (∀ raw, list_all (DiskState.corrupt raw) = [])
    ∧ (∀ xs, list_all (DiskState.wellFormed (Json.arr xs)) = []) := by
  refine ⟨?_, rfl, rfl, fun raw => rfl, fun xs => rfl⟩
  intro e he
  simp [list_all, he]

/-- Witness for C4 at the corrupt / non-document inputs of the tests. -/
theorem list_all_never_raises_witness :
    list_all DiskState.absent = []
    ∧ list_all (DiskState.corrupt "\x7b invalid json \x7d") = []
    ∧ list_all (DiskState.wellFormed
        (Json.arr [Json.str "not", Json.str "a", Json.str "dict"])) = [] :=
  ⟨(list_all_never_raises DiskState.absent).1 ⟨"cache file absent"⟩ rfl,
   (list_all_never_raises (DiskState.corrupt "\x7b invalid json \x7d")).2.2.2.1 _,
   (list_all_never_raises (DiskState.wellFormed
      (Json.arr [Json.str "not", Json.str "a", Json.str "dict"]))).2.2.2.2 _⟩

/-! ## The `list` command's validation (`cli/list.py`, present in the sources)

`validate_project_mapping` and `get_disk_usage` are embedded from
`src/prime_uve/cli/list.py`.  Filesystem probes that can raise are embedded
as `Except`-valued inputs; `expand_path_variables` (whose module is not part
of the embedded core) is an opaque function argument. -/

/-- The `ValidationResult` dataclass of `cli/list.py`. -/
structure CliValidationResult where
  project_name : String
  project_path : String
  venv_path : String
  venv_path_expanded : String
  hash : String
  created_at : String
  is_valid : Bool
  env_venv_path : Option String
  disk_usage_bytes : Nat
deriving Repr, DecidableEq

/-- The cache-entry fields `validate_project_mapping` reads. -/
structure CliCacheEntry where
  venv_path : String
  project_name : String
  path_hash : String
  created_at : String
deriving Repr, DecidableEq

/-- One item yielded by `path.rglob("*")`: whether it is a regular file and
the outcome of `item.stat().st_size` (`.error` = `OSError`/`PermissionError`). -/
structure FsItem where
  is_file : Bool
  statSize : Except Unit Nat
deriving Repr

/-- `get_disk_usage` of `cli/list.py`: sums the sizes of the regular files
yielded by `rglob`, skipping any item whose `stat` fails; a failure of the
iteration itself truncates the walk (`items` is the yielded portion), and the
partial total is returned — the function never raises. -/
def get_disk_usage (items : List FsItem) : Nat :=
  items.foldl
    (fun total item =>
      if item.is_file then
        match item.statSize with
        | .ok n => total + n
        | .error _ => total
      else total)
    0

/-- The filesystem facts `validate_project_mapping` probes: whether
`project/.env.uve` exists, the outcome of `read_env_file` on it (`.error` =
any exception), whether the expanded venv directory exists, and the outcome
of the `get_disk_usage` call (`.error` = an exception not caught inside it,
`.ok items` = the walked items). -/
structure ProbeFs where
  envFileExists : Bool
  readEnv : Except Unit (List (String × String))
  venvExpandedExists : Bool
  diskCall : Except Unit (List FsItem)
deriving Repr

/-- `validate_project_mapping` of `cli/list.py`: the single check is whether
`.env.uve`'s `UV_PROJECT_ENVIRONMENT` equals the cached `venv_path`; any
exception while reading leaves `is_valid = False` and `env_venv_path = None`;
disk usage defaults to `0` and any exception from the probe is swallowed. -/
def validate_project_mapping (expand : String → String) (project_path : String)
    (entry : CliCacheEntry) (fs : ProbeFs) : CliValidationResult :=
  let venv_path := entry.venv_path
  let venv_path_expanded := expand venv_path
  let envOutcome : Option String × Bool :=
    if fs.envFileExists then
      match fs.readEnv with
      | .ok env_vars =>
          let e := lookupA env_vars "UV_PROJECT_ENVIRONMENT"
          (e, decide (e = some venv_path))
      | .error _ => (none, false)
    else (none, false)
  let disk_usage : Nat :=
    if fs.venvExpandedExists then
      match fs.diskCall with
      | .ok items => get_disk_usage items
      | .error _ => 0
    else 0
  ⟨entry.project_name, project_path, venv_path, venv_path_expanded,
   entry.path_hash, entry.created_at, envOutcome.2, envOutcome.1, disk_usage⟩

theorem get_disk_usage_go (items : List FsItem) (acc : Nat) :
    items.foldl
      (fun total item =>
        if item.is_file then
          match item.statSize with
          | .ok n => total + n
          | .error _ => total
        else total) acc
    = acc + (items.filterMap
        (fun item =>
          if item.is_file then
            match item.statSize with
            | .ok n => some n
            | .error _ => none
          else none)).sum := by
  induction items generalizing acc with
  | nil => simp
  | cons it rest ih =>
      by_cases hf : it.is_file
      · cases hs : it.statSize with
        | ok n => simp [hf, hs, ih, Nat.add_assoc]
        | error e => simp [hf, hs, ih]
      · simp [hf, ih]

/-- C7: validation never crashes.  For every cache entry and filesystem
state, `validate_project_mapping` returns a `ValidationResult`: an exception
while reading `.env.uve` is swallowed and yields a not-valid result with no
declared path; an exception while probing disk usage is swallowed and yields
a disk usage of `0`; and `get_disk_usage` itself never raises, returning the
sum of the sizes of the successfully statted regular files. -/
theorem validate_project_mapping_never_crashes (expand : String → String)
    (pp : String) (entry : CliCacheEntry) (fs : ProbeFs) :
    (∀ e, fs.readEnv = Except.error e →
        (validate_project_mapping expand pp entry fs).is_valid = false
        ∧ (validate_project_mapping expand pp entry fs).env_venv_path = none)
    ∧ (∀ e, fs.diskCall = Except.error e →
        (validate_project_mapping expand pp entry fs).disk_usage_bytes = 0)
    ∧ (∀ items, get_disk_usage items
        = (items.filterMap
            (fun item =>
              if item.is_file then
                match item.statSize with
                | .ok n => some n
                | .error _ => none
              else none)).sum)
    ∧ validate_project_mapping expand pp entry fs
        = ⟨entry.project_name, pp, entry.venv_path, expand entry.venv_path,
           entry.path_hash, entry.created_at,
           (validate_project_mapping expand pp entry fs).is_valid,
           (validate_project_mapping expand pp entry fs).env_venv_path,
           (validate_project_mapping expand pp entry fs).disk_usage_bytes⟩ := by
  refine ⟨?_, ?_, ?_, rfl⟩
  · intro e he
    cases hfe : fs.envFileExists <;>
      simp [validate_project_mapping, hfe, he]
  · intro e he
    cases hve : fs.venvExpandedExists <;>
      simp [validate_project_mapping, hve, he]
  · intro items
    simpa using get_disk_usage_go items 0

/-- Witness for C7: a filesystem state where both the `.env.uve` read and the
disk-usage probe raise. -/
theorem validate_project_mapping_never_crashes_witness :
    ((validate_project_mapping id "/p" ⟨"v", "n", "h", "t"⟩
        ⟨true, Except.error (), true, Except.error ()⟩).is_valid = false
      ∧ (validate_project_mapping id "/p" ⟨"v", "n", "h", "t"⟩
          ⟨true, Except.error (), true, Except.error ()⟩).env_venv_path = none)
    ∧ (validate_project_mapping id "/p" ⟨"v", "n", "h", "t"⟩
        ⟨true, Except.error (), true, Except.error ()⟩).disk_usage_bytes = 0
    ∧ get_disk_usage [⟨true, Except.ok 7⟩, ⟨true, Except.error ()⟩, ⟨false, Except.ok 9⟩]
        = 7 :=
  ⟨(validate_project_mapping_never_crashes id "/p" ⟨"v", "n", "h", "t"⟩
      ⟨true, Except.error (), true, Except.error ()⟩).1 () rfl,
   (validate_project_mapping_never_crashes id "/p" ⟨"v", "n", "h", "t"⟩
      ⟨true, Except.error (), true, Except.error ()⟩).2.1 () rfl,
   by
     rw [(validate_project_mapping_never_crashes id "/p" ⟨"v", "n", "h", "t"⟩
        ⟨true, Except.error (), true, Except.error ()⟩).2.2.1
        [⟨true, Except.ok 7⟩, ⟨true, Except.error ()⟩, ⟨false, Except.ok 9⟩]]
     decide⟩

/-! ## The `.env.uve` file module (`core/env_file.py`, absent from the sources)

The parser and writer are modelled from the specification (line-based
`KEY=value`, blank lines and `#` comments ignored, whitespace stripped,
`$\x7bVAR\x7d` placeholders preserved verbatim) over character lists, so
everything evaluates by kernel reduction. -/

/-- The whitespace characters `str.strip` removes. -/
def isWsChar (c : Char) : Bool :=
  c = ' ' || c = '\t' || c = '\n' || c = '\r' || c = '\x0b' || c = '\x0c'

/-- Strip leading and trailing whitespace (Python `str.strip`). -/
def trimChars (l : List Char) : List Char :=
  (l.dropWhile isWsChar).rdropWhile isWsChar

/-- Split on a separator character; always returns at least one group. -/
def splitOnChar (sep : Char) : List Char → List (List Char)
  | [] => [[]]
  | c :: rest =>
      let r := splitOnChar sep rest
      if c = sep then [] :: r else (c :: r.headD []) :: r.tail

/-- Split at the first occurrence of a separator (Python `split(sep, 1)`),
`none` when the separator does not occur. -/
def splitFirstChar (sep : Char) : List Char → Option (List Char × List Char)
  | [] => none
  | c :: rest =>
      if c = sep then some ([], rest)
      else
        match splitFirstChar sep rest with
        | none => none
        | some (a, b) => some (c :: a, b)

/-- Modelled from the spec: parsing one line of a `.env.uve` file — strip it,
skip it when blank or when its first non-blank character is `#` or when it
has no `=` or an empty key; otherwise split on the first `=` and strip both
sides. -/
def parseEnvLine (line : List Char) : Option (List Char × List Char) :=
  match trimChars line with
  | [] => none
  | c :: rest =>
      if c = '#' then none
      else
        match splitFirstChar '=' (c :: rest) with
        | none => none
        | some (k, v) =>
            let k' := trimChars k
            let v' := trimChars v
            if k' = [] then none else some (k', v')

/-- Modelled from the spec: parsing a whole `.env.uve` file into a mapping
(later lines overwrite earlier ones, as with a Python dict). -/
def parseEnvChars (cs : List Char) : List (String × String) :=
  (splitOnChar '\n' cs).foldl
    (fun acc line =>
      match parseEnvLine line with
      | none => acc
      | some (k, v) => upsertA acc ⟨k⟩ ⟨v⟩)
    []

/-- The distinct error type of the env-file module (`EnvFileError`). -/
structure EnvFileError where
  msg : String
deriving Repr, DecidableEq

/-- The states of a `.env.uve` file a read can encounter. -/
inductive EnvFileState where
  | absent
  | unreadable
  | readable (content : String)

/-- Modelled from the spec: `read_env_file` of `prime_uve.core.env_file`
(module absent from the source tree; only its tests remain) — parses a
line-based `KEY=value` file, ignoring blank lines and `#`-prefixed comments
and preserving placeholders verbatim; raises a distinct `EnvFileError` when
the file is absent or unreadable. -/
def read_env_file : EnvFileState → Except EnvFileError (List (String × String))
  | .absent => .error ⟨"File not found"⟩
  | .unreadable => .error ⟨"Permission denied"⟩
  | .readable content => .ok (parseEnvChars content.data)

/-- The characters of one written line, `KEY=value` with a terminating
newline. -/
def envLineChars (k v : String) : List Char :=
  k.data ++ '=' :: v.data ++ ['\n']

/-- The keys of a mapping in ascending sorted order (Python
`sorted(env_vars)`). -/
def sortedKeys (m : List (String × String)) : List String :=
  (m.map Prod.fst).insertionSort (fun a b => a ≤ b)

/-- Modelled from the spec: `write_env_file` of `prime_uve.core.env_file`
(module absent from the source tree; only its tests remain) — emits exactly
one `KEY=value` line per entry, keys in ascending sorted order. -/
def write_env_file (m : List (String × String)) : String :=
  ⟨(sortedKeys m).foldr
      (fun k acc => envLineChars k ((lookupA m k).getD "") ++ acc) []⟩

/-- Overlaying updates onto an existing mapping (Python `dict.update`). -/
def mergeEnv (existing updates : List (String × String)) :
    List (String × String) :=
  updates.foldl (fun acc kv => upsertA acc kv.1 kv.2) existing

/-- The mapping an update starts from: the parse of the existing file, or
empty when the file is absent. -/
def existingOf (file : Option String) : List (String × String) :=
  match file with
  | none => []
  | some c => parseEnvChars c.data

/-- Modelled from the spec: `update_env_file` of `prime_uve.core.env_file`
(module absent from the source tree; only its tests remain) — reads the
existing file when present (treating an absent file as empty), overlays the
updates, and writes the merged mapping back sorted. -/
def update_env_file (file : Option String) (updates : List (String × String)) :
    String :=
  write_env_file (mergeEnv (existingOf file) updates)

/-- C9: for every readable file, `read_env_file` returns the mapping obtained
by the line-based parse — each line of the form `KEY=value` (split on the
first `=`), skipping blank lines and lines whose first non-blank character is
`#`, keeping placeholder values verbatim — and for an absent or unreadable
file it raises a distinct `EnvFileError` rather than returning a result.  The
parse is characterised line by line: a blank line and a comment line yield
nothing, a line without `=` yields nothing, and a parsed pair is exactly the
first-`=` split of the trimmed line with both sides stripped and the key
nonempty. -/
theorem read_env_file_spec (content : String) (line : List Char) :
    read_env_file (EnvFileState.readable content)
      = Except.ok (parseEnvChars content.data)
    ∧ read_env_file EnvFileState.absent = Except.error ⟨"File not found"⟩
    ∧ read_env_file EnvFileState.unreadable = Except.error ⟨"Permission denied"⟩
    ∧ (trimChars line = [] → parseEnvLine line = none)
    ∧ ((trimChars line).head? = some '#' → parseEnvLine line = none)
    ∧ (splitFirstChar '=' (trimChars line) = none → parseEnvLine line = none)
    ∧ (∀ k v, parseEnvLine line = some (k, v) →
        ∃ a b, splitFirstChar '=' (trimChars line) = some (a, b)
          ∧ k = trimChars a ∧ v = trimChars b ∧ k ≠ []) := by
  refine ⟨rfl, rfl, rfl, ?_, ?_, ?_, ?_⟩
  · intro h
    simp [parseEnvLine, h]
  · intro h
    cases htr : trimChars line with
    | nil => simp [parseEnvLine, htr]
    | cons c rest =>
        rw [htr] at h
        simp at h
        simp [parseEnvLine, htr, h]
  · intro h
    cases htr : trimChars line with
    | nil => simp [parseEnvLine, htr]
    | cons c rest =>
        rw [htr] at h
        by_cases hc : c = '#'
        · simp [parseEnvLine, htr, hc]
        · simp [parseEnvLine, htr, hc, h]
  · intro k v hkv
    cases htr : trimChars line with
    | nil => simp [parseEnvLine, htr] at hkv
    | cons c rest =>
        simp only [parseEnvLine, htr] at hkv
        by_cases hc : c = '#'
        · simp [hc] at hkv
        · rw [if_neg hc] at hkv
          cases hsp : splitFirstChar '=' (c :: rest) with
          | none => rw [hsp] at hkv; simp at hkv
          | some ab =>
              obtain ⟨a, b⟩ := ab
              rw [hsp] at hkv
              by_cases hk : trimChars a = []
              · simp [hk] at hkv
              · simp [hk] at hkv
                exact ⟨a, b, rfl, hkv.1.symm, hkv.2.symm, by
                  rw [hkv.1] at hk; exact hk⟩

/-- Witness for C9: the cited tests — basic `KEY=value` pairs, malformed
lines ignored, placeholders kept verbatim — and the error cases. -/
theorem read_env_file_spec_witness :
    read_env_file (EnvFileState.readable "KEY1=value1\nKEY2=value2\n")
      = Except.ok [("KEY1", "value1"), ("KEY2", "value2")]
    ∧ read_env_file (EnvFileState.readable
        "KEY1=value1\nthis line has no equals sign\nKEY2=value2\nanother malformed line\n")
      = Except.ok [("KEY1", "value1"), ("KEY2", "value2")]
    ∧ read_env_file (EnvFileState.readable
        "UV_PROJECT_ENVIRONMENT=$\x7bHOME\x7d/prime-uve/venvs/test_abc123\n")
      = Except.ok [("UV_PROJECT_ENVIRONMENT", "$\x7bHOME\x7d/prime-uve/venvs/test_abc123")]
    ∧ read_env_file EnvFileState.absent = Except.error ⟨"File not found"⟩
    ∧ read_env_file EnvFileState.unreadable = Except.error ⟨"Permission denied"⟩
    ∧ parseEnvLine "   ".data = none
    ∧ parseEnvLine "# This comment has KEY=VALUE in it".data = none := by
  refine ⟨?_, ?_, ?_,
    (read_env_file_spec "" []).2.1,
    (read_env_file_spec "" []).2.2.1,
    (read_env_file_spec "" "   ".data).2.2.2.1 (by decide),
    (read_env_file_spec "" "# This comment has KEY=VALUE in it".data).2.2.2.2.1
      (by decide)⟩
  · rw [(read_env_file_spec "KEY1=value1\nKEY2=value2\n" []).1]
    exact congrArg Except.ok (by decide)
  · rw [(read_env_file_spec
      "KEY1=value1\nthis line has no equals sign\nKEY2=value2\nanother malformed line\n"
      []).1]
    exact congrArg Except.ok (by decide)
  · rw [(read_env_file_spec
      "UV_PROJECT_ENVIRONMENT=$\x7bHOME\x7d/prime-uve/venvs/test_abc123\n" []).1]
    exact congrArg Except.ok (by decide)

/-! ### Lemmas about lookup, merge and the writer -/

theorem lookupA_mem {α : Type} (m : List (String × α)) (k : String) (v : α)
    (h : lookupA m k = some v) : (k, v) ∈ m := by
  induction m with
  | nil => simp [lookupA] at h
  | cons kv rest ih =>
      obtain ⟨k0, v0⟩ := kv
      by_cases h0 : k0 = k
      · subst h0
        simp [lookupA] at h
        simp [h]
      · simp [lookupA, h0] at h
        simp [ih h]

theorem lookupA_isSome_iff_mem {α : Type} (m : List (String × α)) (k : String) :
    (lookupA m k).isSome = true ↔ k ∈ m.map Prod.fst := by
  induction m with
  | nil => simp [lookupA]
  | cons kv rest ih =>
      obtain ⟨k0, v0⟩ := kv
      by_cases h0 : k0 = k
      · subst h0
        simp [lookupA]
      · have hstep : lookupA ((k0, v0) :: rest) k = lookupA rest k := by
          simp [lookupA, h0]
        rw [hstep, ih]
        simp only [List.map_cons, List.mem_cons]
        constructor
        · exact fun hh => Or.inr hh
        · rintro (hh | hh)
          · exact absurd hh.symm h0
          · exact hh

theorem lookupA_eq_none_of_not_mem {α : Type} (m : List (String × α)) (k : String)
    (h : k ∉ m.map Prod.fst) : lookupA m k = none := by
  cases hl : lookupA m k with
  | none => rfl
  | some v =>
      exact absurd ((lookupA_isSome_iff_mem m k).1 (by simp [hl])) h

theorem mergeEnv_lookup (updates : List (String × String)) :
    ∀ existing : List (String × String), (updates.map Prod.fst).Nodup →
      ∀ k, lookupA (mergeEnv existing updates) k
        = match lookupA updates k with
          | some v => some v
          | none => lookupA existing k := by
  induction updates with
  | nil =>
      intro existing _ k
      simp [mergeEnv, lookupA]
  | cons kv rest ih =>
      intro existing hnd k
      obtain ⟨k0, v0⟩ := kv
      simp only [List.map_cons, List.nodup_cons] at hnd
      have hstep : mergeEnv existing ((k0, v0) :: rest)
          = mergeEnv (upsertA existing k0 v0) rest := rfl
      rw [hstep, ih (upsertA existing k0 v0) hnd.2 k]
      by_cases hk : k0 = k
      · subst hk
        have hr : lookupA rest k0 = none :=
          lookupA_eq_none_of_not_mem rest k0 hnd.1
        simp [lookupA, hr, lookupA_upsertA_self]
      · simp [lookupA, hk, lookupA_upsertA_ne existing k0 k v0 (fun hh => hk hh.symm)]

theorem foldl_upsert_lookup (f : String → String) (ks : List String) :
    ∀ (acc : List (String × String)) (x : String),
      lookupA (ks.foldl (fun a k => upsertA a k (f k)) acc) x
        = if x ∈ ks then some (f x) else lookupA acc x := by
  induction ks with
  | nil => intro acc x; simp
  | cons k ks ih =>
      intro acc x
      simp only [List.foldl_cons]
      rw [ih (upsertA acc k (f k)) x]
      by_cases hx : x ∈ ks
      · simp [hx]
      · by_cases hxk : x = k
        · subst hxk
          simp [hx, lookupA_upsertA_self]
        · simp [hx, hxk, lookupA_upsertA_ne acc k x (f k) hxk]

theorem write_foldr_congr (m1 m2 : List (String × String))
    (h : ∀ k, lookupA m1 k = lookupA m2 k) (ks : List String) :
    ks.foldr (fun k acc => envLineChars k ((lookupA m1 k).getD "") ++ acc) []
      = ks.foldr (fun k acc => envLineChars k ((lookupA m2 k).getD "") ++ acc) [] := by
  induction ks with
  | nil => rfl
  | cons k ks ih => simp [h k, ih]

/-! ### Round-trip lemmas: the parser inverts the writer -/

/-- Well-formedness of a written key: nonempty, already stripped, free of
`=` and newlines, and not starting with `#`. -/
def WfKey (k : String) : Prop :=
  k.data ≠ [] ∧ k.data.dropWhile isWsChar = k.data
    ∧ k.data.rdropWhile isWsChar = k.data
    ∧ '=' ∉ k.data ∧ '\n' ∉ k.data ∧ k.data.head? ≠ some '#'

/-- Well-formedness of a written value: already stripped and free of
newlines (placeholder values are ordinary characters). -/
def WfVal (v : String) : Prop :=
  v.data.dropWhile isWsChar = v.data ∧ v.data.rdropWhile isWsChar = v.data
    ∧ '\n' ∉ v.data

instance (k : String) : Decidable (WfKey k) := by
  unfold WfKey
  infer_instance

instance (v : String) : Decidable (WfVal v) := by
  unfold WfVal
  infer_instance

theorem head_not_of_dropWhile_self (p : Char → Bool) (c : Char) (t : List Char)
    (h : (c :: t).dropWhile p = c :: t) : ¬ p c = true := by
  intro hp
  rw [List.dropWhile_cons, if_pos hp] at h
  have hlen : (t.dropWhile p).length ≤ t.length := (List.dropWhile_sublist _).length_le
  rw [h] at hlen
  simp at hlen

theorem dropWhile_of_reverse_self (p : Char → Bool) (v : List Char)
    (h : v.rdropWhile p = v) : v.reverse.dropWhile p = v.reverse := by
  have h' : (v.reverse.dropWhile p).reverse = v := h
  have := congrArg List.reverse h'
  simpa using this

theorem trimChars_line (k v : List Char) (hk0 : k ≠ [])
    (hkd : k.dropWhile isWsChar = k) (hvr : v.rdropWhile isWsChar = v) :
    trimChars (k ++ '=' :: v) = k ++ '=' :: v := by
  obtain ⟨c, t, rfl⟩ : ∃ c t, k = c :: t := by
    cases k with
    | nil => exact absurd rfl hk0
    | cons c t => exact ⟨c, t, rfl⟩
  have hc : ¬ isWsChar c = true := head_not_of_dropWhile_self _ _ _ hkd
  unfold trimChars
  have hdrop : ((c :: t) ++ '=' :: v).dropWhile isWsChar = (c :: t) ++ '=' :: v := by
    rw [List.cons_append, List.dropWhile_cons, if_neg hc]
  rw [hdrop]
  unfold List.rdropWhile
  rw [List.reverse_append, List.reverse_cons]
  cases hrv : v.reverse with
  | nil =>
      have hv : v = [] := by simpa using congrArg List.reverse hrv
      subst hv
      simp [List.dropWhile_cons, isWsChar]
  | cons x xs =>
      have hdv : v.reverse.dropWhile isWsChar = v.reverse :=
        dropWhile_of_reverse_self _ _ hvr
      rw [hrv] at hdv
      have hx : ¬ isWsChar x = true := head_not_of_dropWhile_self _ _ _ hdv
      have hshape : ((x :: xs) ++ ['=']) ++ (c :: t).reverse
          = x :: (xs ++ ['='] ++ (c :: t).reverse) := by simp
      rw [hshape, List.dropWhile_cons, if_neg hx, ← hshape]
      have hfin : (((x :: xs) ++ ['=']) ++ (c :: t).reverse).reverse
          = (c :: t) ++ '=' :: v := by
        have hrv' : v = (x :: xs).reverse := by
          have h2 := congrArg List.reverse hrv
          simpa using h2
        simp [hrv']
      rw [hfin]

theorem splitFirstChar_append (k v : List Char) (hk : '=' ∉ k) :
    splitFirstChar '=' (k ++ '=' :: v) = some (k, v) := by
  induction k with
  | nil => simp [splitFirstChar]
  | cons c t ih =>
      simp only [List.mem_cons, not_or] at hk
      have hc : ¬ c = '=' := fun h => hk.1 h.symm
      simp [splitFirstChar, hc, ih hk.2]

theorem parseEnvLine_generated (k v : List Char) (hk0 : k ≠ [])
    (hkd : k.dropWhile isWsChar = k) (hkr : k.rdropWhile isWsChar = k)
    (hvd : v.dropWhile isWsChar = v) (hvr : v.rdropWhile isWsChar = v)
    (hke : '=' ∉ k) (hkh : k.head? ≠ some '#') :
    parseEnvLine (k ++ '=' :: v) = some (k, v) := by
  have htr : trimChars (k ++ '=' :: v) = k ++ '=' :: v :=
    trimChars_line _ _ hk0 hkd hvr
  have htk : trimChars k = k := by
    unfold trimChars
    rw [hkd, hkr]
  have htv : trimChars v = v := by
    unfold trimChars
    rw [hvd, hvr]
  obtain ⟨c, t, rfl⟩ : ∃ c t, k = c :: t := by
    cases k with
    | nil => exact absurd rfl hk0
    | cons c t => exact ⟨c, t, rfl⟩
  have hc : ¬ c = '#' := by
    intro hcc
    exact hkh (by simp [hcc])
  have hsp : splitFirstChar '=' ((c :: t) ++ '=' :: v) = some (c :: t, v) :=
    splitFirstChar_append _ _ hke
  unfold parseEnvLine
  rw [htr]
  simp only [List.cons_append]
  rw [if_neg hc]
  rw [List.cons_append] at hsp
  rw [hsp]
  simp only [htk, htv]
  rw [if_neg (by simp)]

theorem splitOnChar_append_of (sep : Char) (a b : List Char) (ha : sep ∉ a) :
    splitOnChar sep (a ++ sep :: b) = a :: splitOnChar sep b := by
  induction a with
  | nil => simp [splitOnChar]
  | cons c a' ih =>
      simp only [List.mem_cons, not_or] at ha
      have hc : ¬ c = sep := fun h => ha.1 h.symm
      have ih' := ih ha.2
      rw [List.cons_append]
      simp only [splitOnChar]
      rw [ih', if_neg hc]
      simp

/-- The raw characters `write_env_file` emits for a given key list. -/
def writeRaw (m : List (String × String)) (ks : List String) : List Char :=
  ks.foldr (fun k acc => envLineChars k ((lookupA m k).getD "") ++ acc) []

theorem write_env_file_eq_writeRaw (m : List (String × String)) :
    (write_env_file m).data = writeRaw m (sortedKeys m) := rfl

theorem splitOnChar_writeRaw (m : List (String × String)) (ks : List String)
    (hwf : ∀ k ∈ ks, WfKey k ∧ WfVal ((lookupA m k).getD "")) :
    splitOnChar '\n' (writeRaw m ks)
      = ks.map (fun k => k.data ++ '=' :: ((lookupA m k).getD "").data) ++ [[]] := by
  induction ks with
  | nil => simp [writeRaw, splitOnChar]
  | cons k ks ih =>
      obtain ⟨hk, hv⟩ := hwf k (by simp)
      have hnl : '\n' ∉ k.data ++ '=' :: ((lookupA m k).getD "").data := by
        simp only [List.mem_cons, List.mem_append, not_or]
        exact ⟨hk.2.2.2.2.1, by decide, hv.2.2⟩
      have hshape : writeRaw m (k :: ks)
          = (k.data ++ '=' :: ((lookupA m k).getD "").data) ++ '\n' :: writeRaw m ks := by
        simp [writeRaw, envLineChars]
      rw [hshape, splitOnChar_append_of _ _ _ hnl,
        ih (fun x hx => hwf x (by simp [hx]))]
      simp

theorem parseEnvLine_nil : parseEnvLine [] = none := rfl

theorem parse_generated_lines (m : List (String × String)) (ks : List String)
    (hwf : ∀ k ∈ ks, WfKey k ∧ WfVal ((lookupA m k).getD "")) :
    ∀ acc : List (String × String),
      (ks.map (fun k => k.data ++ '=' :: ((lookupA m k).getD "").data)).foldl
          (fun acc line =>
            match parseEnvLine line with
            | none => acc
            | some (k, v) => upsertA acc ⟨k⟩ ⟨v⟩) acc
        = ks.foldl (fun a k => upsertA a k ((lookupA m k).getD "")) acc := by
  induction ks with
  | nil => intro acc; rfl
  | cons k ks ih =>
      intro acc
      obtain ⟨⟨hk0, hkd, hkr, hke, hknl, hkh⟩, hvd, hvr, hvnl⟩ := hwf k (by simp)
      have hline : parseEnvLine (k.data ++ '=' :: ((lookupA m k).getD "").data)
          = some (k.data, ((lookupA m k).getD "").data) :=
        parseEnvLine_generated _ _ hk0 hkd hkr hvd hvr hke hkh
      simp only [List.map_cons, List.foldl_cons, hline]
      exact ih (fun x hx => hwf x (by simp [hx])) _

theorem mem_sortedKeys_iff (m : List (String × String)) (k : String) :
    k ∈ sortedKeys m ↔ k ∈ m.map Prod.fst :=
  (List.perm_insertionSort _ _).mem_iff

/-- The central round-trip lemma: for a mapping with well-formed keys and
values, parsing the written file recovers exactly the mapping. -/
theorem parse_write_roundtrip (m : List (String × String))
    (hwf : ∀ kv ∈ m, WfKey kv.1 ∧ WfVal kv.2) (x : String) :
    lookupA (parseEnvChars (write_env_file m).data) x = lookupA m x := by
  have hwf' : ∀ k ∈ sortedKeys m, WfKey k ∧ WfVal ((lookupA m k).getD "") := by
    intro k hk
    have hk' : k ∈ m.map Prod.fst := (mem_sortedKeys_iff m k).1 hk
    have hs : (lookupA m k).isSome = true := (lookupA_isSome_iff_mem m k).2 hk'
    cases hv : lookupA m k with
    | none => rw [hv] at hs; simp at hs
    | some v =>
        have hmem := lookupA_mem m k v hv
        have := hwf (k, v) hmem
        simpa [hv] using this
  rw [write_env_file_eq_writeRaw]
  unfold parseEnvChars
  rw [splitOnChar_writeRaw m (sortedKeys m) hwf', List.foldl_append]
  simp only [List.foldl_cons, List.foldl_nil, parseEnvLine_nil]
  rw [parse_generated_lines m (sortedKeys m) hwf' []]
  rw [foldl_upsert_lookup (fun k => (lookupA m k).getD "") (sortedKeys m) [] x]
  by_cases hx : x ∈ sortedKeys m
  · have hx' : x ∈ m.map Prod.fst := (mem_sortedKeys_iff m x).1 hx
    have hs : (lookupA m x).isSome = true := (lookupA_isSome_iff_mem m x).2 hx'
    cases hv : lookupA m x with
    | none => rw [hv] at hs; simp at hs
    | some v => simp [hx, hv]
  · have hx' : x ∉ m.map Prod.fst := fun hh => hx ((mem_sortedKeys_iff m x).2 hh)
    rw [if_neg hx, lookupA_eq_none_of_not_mem m x hx']
    rfl

/-- Permutation-invariance: the sorted write canonicalises the mapping. -/
theorem write_env_file_deterministic (m1 m2 : List (String × String))
    (h1 : (m1.map Prod.fst).Nodup) (h2 : (m2.map Prod.fst).Nodup)
    (h : ∀ k, lookupA m1 k = lookupA m2 k) :
    write_env_file m1 = write_env_file m2 := by
  have hmem : ∀ k, k ∈ m1.map Prod.fst ↔ k ∈ m2.map Prod.fst := by
    intro k
    rw [← lookupA_isSome_iff_mem, ← lookupA_isSome_iff_mem, h k]
  have hperm : List.Perm (m1.map Prod.fst) (m2.map Prod.fst) :=
    (List.perm_ext_iff_of_nodup h1 h2).2 hmem
  have hperm' : List.Perm (sortedKeys m1) (sortedKeys m2) :=
    (List.perm_insertionSort _ _).trans
      (hperm.trans (List.perm_insertionSort _ _).symm)
  have hs1 : List.Sorted (fun a b : String => a ≤ b) (sortedKeys m1) :=
    List.sorted_insertionSort _ _
  have hs2 : List.Sorted (fun a b : String => a ≤ b) (sortedKeys m2) :=
    List.sorted_insertionSort _ _
  have hsorted : sortedKeys m1 = sortedKeys m2 :=
    List.eq_of_perm_of_sorted hperm' hs1 hs2
  unfold write_env_file sortedKeys at hsorted ⊢
  rw [hsorted]
  exact congrArg String.mk (write_foldr_congr m1 m2 h _)

/-- C10: env-file writes are deterministic and preservation-safe.
`write_env_file` emits one `KEY=value` line per entry with keys in ascending
sorted order, so two association lists denoting the same mapping produce
byte-identical file content; `update_env_file` writes the overlay of the
updates on the existing mapping, keeping every existing key not mentioned in
the updates with its old value while applying the updates; and a write-read
round trip recovers exactly the original mapping (placeholder values such as
`$\x7bHOME\x7d/...` included, since values pass through verbatim). -/
theorem env_file_write_update_spec :
    (∀ m1 m2 : List (String × String),
      (m1.map Prod.fst).Nodup → (m2.map Prod.fst).Nodup →
      (∀ k, lookupA m1 k = lookupA m2 k) →
      write_env_file m1 = write_env_file m2)
    ∧ (∀ file updates, update_env_file file updates
        = write_env_file (mergeEnv (existingOf file) updates))
    ∧ (∀ file updates k, (updates.map Prod.fst).Nodup →
        lookupA (mergeEnv (existingOf file) updates) k
          = match lookupA updates k with
            | some v => some v
            | none => lookupA (existingOf file) k)
    ∧ (∀ m : List (String × String),
        (∀ kv ∈ m, WfKey kv.1 ∧ WfVal kv.2) →
        ∀ k, lookupA (parseEnvChars (write_env_file m).data) k = lookupA m k) :=
  ⟨write_env_file_deterministic,
   fun _ _ => rfl,
   fun file updates k h => mergeEnv_lookup updates (existingOf file) h k,
   fun m hwf k => parse_write_roundtrip m hwf k⟩

/-- Witness for C10 at the cited tests' inputs: permuted mappings write
identically; an update preserves the untouched existing key; and the
`$\x7bHOME\x7d` placeholder survives the write-read round trip. -/
theorem env_file_write_update_spec_witness :
    write_env_file [("ZEBRA", "last"), ("ALPHA", "first")]
      = write_env_file [("ALPHA", "first"), ("ZEBRA", "last")]
    ∧ update_env_file (some "KEY1=value1\n") [("KEY2", "value2")]
      = write_env_file (mergeEnv (existingOf (some "KEY1=value1\n")) [("KEY2", "value2")])
    ∧ lookupA (mergeEnv (existingOf (some "KEY1=value1\n")) [("KEY2", "value2")]) "KEY1"
      = some "value1"
    ∧ lookupA (mergeEnv (existingOf (some "KEY1=value1\n")) [("KEY2", "value2")]) "KEY2"
      = some "value2"
    ∧ lookupA
        (parseEnvChars
          (write_env_file
            [("UV_PROJECT_ENVIRONMENT", "$\x7bHOME\x7d/prime-uve/venvs/test_abc123")]).data)
        "UV_PROJECT_ENVIRONMENT"
      = some "$\x7bHOME\x7d/prime-uve/venvs/test_abc123" := by
  refine ⟨?_, ?_, ?_, ?_, ?_⟩
  · refine env_file_write_update_spec.1 _ _ (by decide) (by decide) ?_
    intro k
    by_cases hz : "ZEBRA" = k <;> by_cases ha : "ALPHA" = k
    · exact absurd (hz.trans ha.symm) (by decide)
    · simp [lookupA, hz, ha]
    · simp [lookupA, hz, ha]
    · simp [lookupA, hz, ha]
  · exact env_file_write_update_spec.2.1 (some "KEY1=value1\n") [("KEY2", "value2")]
  · exact (env_file_write_update_spec.2.2.1 (some "KEY1=value1\n")
      [("KEY2", "value2")] "KEY1" (by decide)).trans (by decide)
  · exact (env_file_write_update_spec.2.2.1 (some "KEY1=value1\n")
      [("KEY2", "value2")] "KEY2" (by decide)).trans (by decide)
  · exact (env_file_write_update_spec.2.2.2
      [("UV_PROJECT_ENVIRONMENT", "$\x7bHOME\x7d/prime-uve/venvs/test_abc123")]
      (by decide) "UV_PROJECT_ENVIRONMENT").trans (by decide)

end PrimeUve
